import Mathlib

/-!
# Verification of the kautoswitch correction engine

Shallow embedding of the kautoswitch repository (a keyboard-layout
auto-correction daemon) and proofs about it.  The embedding follows the
Python sources:

* `kautoswitch/layout_map.py`   — layout tables, mismatch detection
* `kautoswitch/corrector.py`    — the correction pipeline
* `kautoswitch/rules.py`        — the learned-suppression rule store
* `kautoswitch/undo.py`         — the bounded undo stack
* `kautoswitch/buffer.py`       — the text buffer
* `kautoswitch/daemon.py`       — the daemon state machine

Texts are modelled as `List Char`.  The external dictionary capability
(pyspellchecker) is modelled as an abstract pair of functions
(`contains`, `candidates`); semantic providers as abstract functions.
Python float comparisons against the constants 0.7, 0.5 and the
confidence values are modelled as exact rational comparisons (the
fractions compared are ratios of small word or character counts, where
the two semantics agree).  Character classification (isalpha, isupper,
lower, upper, isspace) is modelled for ASCII and the Cyrillic block
U+0400..U+04FF, which covers the character set the program manipulates;
other characters are treated as unclassified and map to themselves.
-/

namespace Kauto

/-- A text is a list of characters (Python `str`). -/
abbrev Text := List Char

/-! Rational arithmetic helpers.  `Rat.sub` and `Rat.mul` do not reduce
inside the kernel, while `mkRat` and the order comparisons do, so the
embedding uses the following kernel-reducible equivalents (proved equal
to the standard operations below). -/

/-- Kernel-reducible subtraction on `ℚ`. -/
def ratSub (a b : ℚ) : ℚ := mkRat (a.num * b.den - b.num * a.den) (a.den * b.den)

/-- Kernel-reducible multiplication on `ℚ`. -/
def ratMul (a b : ℚ) : ℚ := mkRat (a.num * b.num) (a.den * b.den)

theorem ratSub_eq (a b : ℚ) : ratSub a b = a - b := by
  unfold ratSub
  rw [Rat.mkRat_eq_div]
  push_cast
  rw [show ((a.num : ℚ) * (b.den : ℚ) - (b.num : ℚ) * (a.den : ℚ))
        = (a.num : ℚ) * (b.den : ℚ) - (a.den : ℚ) * (b.num : ℚ) from by ring]
  rw [← div_sub_div _ _ (by positivity) (by positivity)]
  rw [Rat.num_div_den, Rat.num_div_den]

theorem ratMul_eq (a b : ℚ) : ratMul a b = a * b := by
  unfold ratMul
  rw [Rat.mkRat_eq_div]
  push_cast
  rw [← div_mul_div_comm]
  rw [Rat.num_div_den, Rat.num_div_den]

/-- Coerce a Lean string literal to a `Text`. -/
def txt (s : String) : Text := s.data

/-! ## Character model (Python `str` methods on single characters) -/

/-- Python `c.isalpha()` restricted to ASCII letters and the Cyrillic
block U+0400..U+04FF (minus the non-letter signs U+0482..U+0489). -/
def pyIsAlpha (c : Char) : Bool :=
  let n := c.toNat
  (0x41 ≤ n && n ≤ 0x5A) || (0x61 ≤ n && n ≤ 0x7A) ||
  (0x400 ≤ n && n ≤ 0x481) || (0x48A ≤ n && n ≤ 0x4FF)

/-- Python whitespace (the set recognised by `str.strip` / `str.split`). -/
def pyIsSpace (c : Char) : Bool :=
  let n := c.toNat
  (0x09 ≤ n && n ≤ 0x0D) || (0x1C ≤ n && n ≤ 0x1F) || n == 0x20 ||
  n == 0x85 || n == 0xA0 || n == 0x1680 || (0x2000 ≤ n && n ≤ 0x200A) ||
  n == 0x2028 || n == 0x2029 || n == 0x202F || n == 0x205F || n == 0x3000

/-- Python `c.lower()` on ASCII and Cyrillic. -/
def pyLowerChar (c : Char) : Char :=
  let n := c.toNat
  if 0x41 ≤ n && n ≤ 0x5A then Char.ofNat (n + 0x20)
  else if 0x410 ≤ n && n ≤ 0x42F then Char.ofNat (n + 0x20)
  else if 0x400 ≤ n && n ≤ 0x40F then Char.ofNat (n + 0x50)
  else if (0x460 ≤ n && n ≤ 0x481) || (0x48A ≤ n && n ≤ 0x4BF) ||
          (0x4D0 ≤ n && n ≤ 0x4FF) then
    (if n % 2 == 0 then Char.ofNat (n + 1) else c)
  else if n == 0x4C0 then Char.ofNat 0x4CF
  else if 0x4C1 ≤ n && n ≤ 0x4CE then
    (if n % 2 == 1 then Char.ofNat (n + 1) else c)
  else c

/-- Python `c.upper()` on ASCII and Cyrillic. -/
def pyUpperChar (c : Char) : Char :=
  let n := c.toNat
  if 0x61 ≤ n && n ≤ 0x7A then Char.ofNat (n - 0x20)
  else if 0x430 ≤ n && n ≤ 0x44F then Char.ofNat (n - 0x20)
  else if 0x450 ≤ n && n ≤ 0x45F then Char.ofNat (n - 0x50)
  else if (0x460 ≤ n && n ≤ 0x481) || (0x48A ≤ n && n ≤ 0x4BF) ||
          (0x4D0 ≤ n && n ≤ 0x4FF) then
    (if n % 2 == 1 then Char.ofNat (n - 1) else c)
  else if n == 0x4CF then Char.ofNat 0x4C0
  else if 0x4C2 ≤ n && n ≤ 0x4CE then
    (if n % 2 == 0 then Char.ofNat (n - 1) else c)
  else c

/-- Python `c.isupper()` on ASCII and Cyrillic. -/
def pyIsUpper (c : Char) : Bool :=
  let n := c.toNat
  (0x41 ≤ n && n ≤ 0x5A) || (0x400 ≤ n && n ≤ 0x42F) ||
  (((0x460 ≤ n && n ≤ 0x481) || (0x48A ≤ n && n ≤ 0x4BF) ||
    (0x4D0 ≤ n && n ≤ 0x4FF)) && n % 2 == 0) ||
  n == 0x4C0 || ((0x4C1 ≤ n && n ≤ 0x4CE) && n % 2 == 1)

/-- Python `c.islower()` on ASCII and Cyrillic. -/
def pyIsLower (c : Char) : Bool :=
  let n := c.toNat
  (0x61 ≤ n && n ≤ 0x7A) || (0x430 ≤ n && n ≤ 0x45F) ||
  (((0x460 ≤ n && n ≤ 0x481) || (0x48A ≤ n && n ≤ 0x4BF) ||
    (0x4D0 ≤ n && n ≤ 0x4FF)) && n % 2 == 1) ||
  n == 0x4CF || ((0x4C2 ≤ n && n ≤ 0x4CE) && n % 2 == 0)

/-- Python `c.isascii()`. -/
def pyIsAscii (c : Char) : Bool := c.toNat < 0x80

/-- Cyrillic Unicode range test used throughout the sources:
`'Ѐ' <= c <= 'ӿ'`. -/
def isCyrRange (c : Char) : Bool := 0x400 ≤ c.toNat && c.toNat ≤ 0x4FF

/-! ## Text helpers (Python `str` methods) -/

/-- Python `text.lower()` (character-wise on our character set). -/
def pyLower (t : Text) : Text := t.map pyLowerChar

/-- Python `text.upper()`. -/
def pyUpper (t : Text) : Text := t.map pyUpperChar

/-- Python `text.capitalize()`: first character upper-cased, the rest
lower-cased. -/
def pyCapitalize (t : Text) : Text :=
  match t with
  | [] => []
  | c :: rest => pyUpperChar c :: rest.map pyLowerChar

/-- Python `text.isupper()`: at least one cased character and every
cased character uppercase. -/
def pyIsUpperStr (t : Text) : Bool :=
  let cased := t.filter (fun c => pyIsUpper c || pyIsLower c)
  !cased.isEmpty && cased.all pyIsUpper

/-- Python `text.strip()` (whitespace strip from both ends). -/
def pyStrip (t : Text) : Text :=
  ((t.dropWhile pyIsSpace).reverse.dropWhile pyIsSpace).reverse

/-- Python `text.strip(chars)`: strip the characters of `cs` from both
ends. -/
def pyStripChars (cs : List Char) (t : Text) : Text :=
  ((t.dropWhile (cs.contains ·)).reverse.dropWhile (cs.contains ·)).reverse

/-- Helper for `pySplit`: accumulate the current word in `acc`. -/
def pySplitAcc : Text → Text → List Text
  | [], acc => if acc.isEmpty then [] else [acc.reverse]
  | c :: rest, acc =>
    if pyIsSpace c then
      if acc.isEmpty then pySplitAcc rest []
      else acc.reverse :: pySplitAcc rest []
    else pySplitAcc rest (c :: acc)

/-- Python `text.split()` (split on whitespace runs, no empty words). -/
def pySplit (t : Text) : List Text := pySplitAcc t []

/-- Python `' '.join(words)`. -/
def joinSpace (ws : List Text) : Text := List.intercalate (txt " ") ws

/-- Lexicographic comparison of texts by code point (Python `str <`). -/
def textLt : Text → Text → Bool
  | [], [] => false
  | [], _ :: _ => true
  | _ :: _, [] => false
  | a :: as, b :: bs => a < b || (a == b && textLt as bs)

/-! ## `layout_map.py` -/

/-- The `EN_TO_RU` table: EN key position to RU character
(QWERTY to the standard Russian layout), as an association list in
source order.  Characters that clash with Lean surface syntax are
written with `Char.ofNat` (39 is the apostrophe, 96 the backtick,
123 and 125 the braces). -/
def EN_TO_RU : List (Char × Char) :=
  [('q', 'й'), ('w', 'ц'), ('e', 'у'), ('r', 'к'), ('t', 'е'), ('y', 'н'),
   ('u', 'г'), ('i', 'ш'), ('o', 'щ'), ('p', 'з'), ('[', 'х'), (']', 'ъ'),
   ('a', 'ф'), ('s', 'ы'), ('d', 'в'), ('f', 'а'), ('g', 'п'), ('h', 'р'),
   ('j', 'о'), ('k', 'л'), ('l', 'д'), (';', 'ж'), (Char.ofNat 39, 'э'),
   ('z', 'я'), ('x', 'ч'), ('c', 'с'), ('v', 'м'), ('b', 'и'), ('n', 'т'),
   ('m', 'ь'), (',', 'б'), ('.', 'ю'), ('/', '.'),
   ('Q', 'Й'), ('W', 'Ц'), ('E', 'У'), ('R', 'К'), ('T', 'Е'), ('Y', 'Н'),
   ('U', 'Г'), ('I', 'Ш'), ('O', 'Щ'), ('P', 'З'),
   (Char.ofNat 123, 'Х'), (Char.ofNat 125, 'Ъ'),
   ('A', 'Ф'), ('S', 'Ы'), ('D', 'В'), ('F', 'А'), ('G', 'П'), ('H', 'Р'),
   ('J', 'О'), ('K', 'Л'), ('L', 'Д'), (':', 'Ж'), ('"', 'Э'),
   ('Z', 'Я'), ('X', 'Ч'), ('C', 'С'), ('V', 'М'), ('B', 'И'), ('N', 'Т'),
   ('M', 'Ь'), ('<', 'Б'), ('>', 'Ю'), ('?', ','),
   (Char.ofNat 96, 'ё'), ('~', 'Ё')]

/-- The reverse map `RU_TO_EN = {v: k for k, v in EN_TO_RU.items()}`.
The values of `EN_TO_RU` are pairwise distinct, so reversing the pairs
gives the same dictionary. -/
def RU_TO_EN : List (Char × Char) := EN_TO_RU.map (fun p => (p.2, p.1))

/-- `RU_CHARS = set(EN_TO_RU.values())`. -/
def RU_CHARS : List Char := EN_TO_RU.map (·.2)

/-- `EN_CHARS = set(EN_TO_RU.keys())`. -/
def EN_CHARS : List Char := EN_TO_RU.map (·.1)

/-- `RU_ALPHA`: the alphabetic characters of `RU_CHARS`. -/
def RU_ALPHA : List Char := RU_CHARS.filter pyIsAlpha

/-- `EN_ALPHA`: the alphabetic characters of `EN_CHARS`. -/
def EN_ALPHA : List Char := EN_CHARS.filter pyIsAlpha

/-- `EN_TO_RU.get(c, c)` — dictionary lookup with the character itself
as default. -/
def enToRuChar (c : Char) : Char := ((EN_TO_RU.lookup c).getD c)

/-- `RU_TO_EN.get(c, c)`. -/
def ruToEnChar (c : Char) : Char := ((RU_TO_EN.lookup c).getD c)

/-- `map_en_to_ru(text)`: per-character substitution through `EN_TO_RU`,
unmapped characters pass through. -/
def map_en_to_ru (t : Text) : Text := t.map enToRuChar

/-- `map_ru_to_en(text)`. -/
def map_ru_to_en (t : Text) : Text := t.map ruToEnChar

/-- Result of `detect_layout_mismatch` (the Python function returns one
of the strings `mixed`, `en_meant_ru`, `ru_meant_en`, or `None`). -/
inductive Mismatch where
  | mixed
  | enMeantRu
  | ruMeantEn
  deriving DecidableEq, Repr

/-- `detect_layout_mismatch(text)` from `layout_map.py`: classify the
alphabetic characters; both scripts present means `mixed`; a script
fraction strictly above 0.7 means that script meant the other layout. -/
def detect_layout_mismatch (t : Text) : Option Mismatch :=
  if (pyStrip t).isEmpty then none
  else
    let alphaChars := t.filter pyIsAlpha
    if alphaChars.isEmpty then none
    else
      let enCount := alphaChars.countP (fun c => EN_ALPHA.contains c)
      let ruCount := alphaChars.countP (fun c => RU_ALPHA.contains c)
      let total := alphaChars.length
      if total == 0 then none
      else if enCount > 0 && ruCount > 0 then some .mixed
      else if mkRat enCount total > mkRat 7 10 then some .enMeantRu
      else if mkRat ruCount total > mkRat 7 10 then some .ruMeantEn
      else none

/-- Target layout for `fix_mixed_layout` (the Python argument is the
string `ru` or `en`). -/
inductive Script where
  | ru
  | en
  deriving DecidableEq, Repr

/-- `fix_mixed_layout(text, target)`: remap characters that have an
entry towards `target`, leave others unchanged. -/
def fix_mixed_layout (t : Text) (target : Script) : Text :=
  t.map (fun c =>
    match target with
    | .ru => (EN_TO_RU.lookup c).getD c
    | .en => (RU_TO_EN.lookup c).getD c)

/-- `is_all_caps(text)`: more than one alphabetic character and all of
them uppercase. -/
def is_all_caps (t : Text) : Bool :=
  let alphaChars := t.filter pyIsAlpha
  alphaChars.length > 1 && alphaChars.all pyIsUpper

/-- Layout identifiers (`LAYOUT_EN = 'us'`, `LAYOUT_RU = 'ru'`). -/
inductive Layout where
  | us
  | ru
  deriving DecidableEq, Repr

/-- `detect_target_layout(corrected_text)`: pick the script of the last
word by comparing its Cyrillic-range and ASCII character counts. -/
def detect_target_layout (t : Text) : Option Layout :=
  if t.isEmpty then none
  else
    let words := pySplit t
    let lastWord := (words.getLast?).getD t
    let alphaChars := lastWord.filter pyIsAlpha
    if alphaChars.isEmpty then none
    else
      let ruCount := alphaChars.countP isCyrRange
      let enCount := alphaChars.countP pyIsAscii
      if ruCount > enCount then some .ru
      else if enCount > ruCount then some .us
      else none

/-! ## `corrector.py`

The external pyspellchecker dictionaries are modelled by the capability
interface of §2 and §6 of the spec: `contains(word) -> bool` (Python
`word in spell`) and `candidates(word) -> set<word>` (a list here; the
best candidate is picked through a total order, so the order of the
list is irrelevant for distinct candidates).  Semantic providers
(`tinyllm.correct`, `api_client.correct`) are abstract functions. -/

/-- Dictionary capability (pyspellchecker instance). -/
structure SpellDict where
  contains : Text → Bool
  candidates : Text → List Text

/-- Semantic provider capability: `correct(text, context) -> optional(text)`. -/
abbrev Provider := Text → Text → Option Text

/-- The configuration options the corrector and daemon read
(`config.py`).  `model` is the raw string option compared against
`"api"`. -/
structure Config where
  enabled : Bool
  langEn : Bool
  langRu : Bool
  model : String
  confidenceThreshold : ℚ

/-- A `Corrector` instance: configuration, the two optional semantic
providers and the two spell dictionaries. -/
structure Corrector where
  config : Config
  tinyllm : Option Provider
  api_client : Option Provider
  spell_en : SpellDict
  spell_ru : SpellDict

/-- The punctuation set of `Corrector._clean_word`
(`.,;:!?()[]...-=+@#$%^&*~...<>|` plus quotes, braces, slashes).
Characters written with `Char.ofNat`: 123/125 are the braces, 39 the
apostrophe, 96 the backtick. -/
def PUNCT_CHARS : List Char :=
  ['.', ',', ';', ':', '!', '?', '(', ')', '[', ']',
   Char.ofNat 123, Char.ofNat 125, '"', Char.ofNat 39, '/', '\\',
   '-', '=', '+', '@', '#', '$', '%', Char.ofNat 94, '&', '*', '~',
   Char.ofNat 96, '<', '>', '|']

/-- `Corrector._clean_word`: strip punctuation from word edges. -/
def Corrector.clean_word (w : Text) : Text := pyStripChars PUNCT_CHARS w

/-- `Corrector._is_english`: the word has alphabetic characters and the
lower or upper form of each is in `EN_ALPHA`. -/
def Corrector.is_english (w : Text) : Bool :=
  let alphaChars := w.filter pyIsAlpha
  !alphaChars.isEmpty &&
    alphaChars.all (fun c =>
      EN_ALPHA.contains (pyLowerChar c) || EN_ALPHA.contains (pyUpperChar c))

/-- `Corrector._is_russian`: the word has alphabetic characters and
each is Russian by table membership or by Unicode range. -/
def Corrector.is_russian (w : Text) : Bool :=
  let alphaChars := w.filter pyIsAlpha
  !alphaChars.isEmpty &&
    alphaChars.all (fun c =>
      RU_ALPHA.contains (pyLowerChar c) || RU_ALPHA.contains c ||
      isCyrRange c || isCyrRange (pyLowerChar c))

/-- `Corrector._is_valid_word`: empty is valid; otherwise valid when an
enabled language recognises the script and the lowercase form is in
that dictionary. -/
def Corrector.is_valid_word (C : Corrector) (w : Text) : Bool :=
  if w.isEmpty then true
  else if C.config.langEn && Corrector.is_english w &&
          C.spell_en.contains (pyLower w) then true
  else if C.config.langRu && Corrector.is_russian w &&
          C.spell_ru.contains (pyLower w) then true
  else false

/-- `Corrector._is_valid_text`: every whitespace word is valid after
punctuation cleaning (empty cleaned words count as valid). -/
def Corrector.is_valid_text (C : Corrector) (t : Text) : Bool :=
  let words := pySplit t
  if words.isEmpty then true
  else
    let validCount := words.countP (fun w =>
      let clean := Corrector.clean_word w
      clean.isEmpty || C.is_valid_word clean)
    validCount == words.length

/-- `Corrector._text_validity_score`: fraction of words individually
valid (note: no punctuation-empty bonus — the empty cleaned word is
valid through `is_valid_word`). -/
def Corrector.text_validity_score (C : Corrector) (t : Text) : ℚ :=
  let words := pySplit t
  if words.isEmpty then mkRat 0 1
  else
    mkRat (words.countP (fun w => C.is_valid_word (Corrector.clean_word w)))
      words.length

/-- The Damerau–Levenshtein table of `Corrector._damerau_levenshtein`
as a recurrence: `dlAux a b fuel i j` is the Python `d[i][j]`.  The
`fuel` argument only makes the recursion structural (every recursive
call strictly decreases `i + j`, so any `fuel ≥ i + j` is enough and
the `fuel = 0` fallback is unreachable from `damerau_levenshtein`). -/
def dlAux (a b : Text) : Nat → Nat → Nat → Nat
  | _, 0, j => j
  | _, i + 1, 0 => i + 1
  | 0, _ + 1, _ + 1 => 0
  | fuel + 1, i + 1, j + 1 =>
    let cost := if a.getD i ' ' == b.getD j ' ' then 0 else 1
    let base := min (dlAux a b fuel i (j + 1) + 1)
      (min (dlAux a b fuel (i + 1) j + 1) (dlAux a b fuel i j + cost))
    if 1 ≤ i && 1 ≤ j && a.getD i ' ' == b.getD (j - 1) ' ' &&
       a.getD (i - 1) ' ' == b.getD j ' ' then
      min base (dlAux a b fuel (i - 1) (j - 1) + cost)
    else base

/-- `Corrector._damerau_levenshtein(a, b)`: full edit distance with
adjacent transpositions. -/
def Corrector.damerau_levenshtein (a b : Text) : Nat :=
  dlAux a b (a.length + b.length) a.length b.length

/-- Strict comparison of scored candidates — Python tuple comparison
on `(distance, length difference, candidate)`. -/
def tripleLt (x y : Nat × Nat × Text) : Bool :=
  x.1 < y.1 || (x.1 == y.1 &&
    (x.2.1 < y.2.1 || (x.2.1 == y.2.1 && textLt x.2.2 y.2.2)))

/-- `Corrector._pick_best_candidate`: score every candidate by edit
distance then length difference and return the minimum
(`scored.sort(); scored[0][2]`). -/
def Corrector.pick_best_candidate (original : Text) (cands : List Text) :
    Option Text :=
  if cands.isEmpty then none
  else
    let scored := cands.map (fun c =>
      (Corrector.damerau_levenshtein original c,
       ((original.length : Int) - (c.length : Int)).natAbs, c))
    match scored with
    | [] => none
    | s :: rest =>
      some (rest.foldl (fun best x => if tripleLt x best then x else best) s).2.2

/-- `Corrector._spell_correct_word`: try the Russian dictionary (when
the word looks Russian or has any Cyrillic character), then the English
one; each attempt accepts the best candidate only at distance ≤ 3. -/
def Corrector.spell_correct_word (C : Corrector) (word : Text) : Option Text :=
  let lower := pyLower word
  let ruAttempt : Option Text :=
    if Corrector.is_russian word ||
       word.any (fun c => RU_ALPHA.contains c || isCyrRange c) then
      let cands := C.spell_ru.candidates lower
      if !cands.isEmpty then
        match Corrector.pick_best_candidate lower cands with
        | some best =>
          if Corrector.damerau_levenshtein lower best ≤ 3 then some best else none
        | none => none
      else none
    else none
  match ruAttempt with
  | some r => some r
  | none =>
    if Corrector.is_english word then
      let cands := C.spell_en.candidates lower
      if !cands.isEmpty then
        match Corrector.pick_best_candidate lower cands with
        | some best =>
          if Corrector.damerau_levenshtein lower best ≤ 3 then some best else none
        | none => none
      else none
    else none

/-- `Corrector._apply_casing`: all-upper original gives upper,
capitalised original gives capitalised, else unchanged. -/
def Corrector.apply_casing (original corrected : Text) : Text :=
  if pyIsUpperStr original then pyUpper corrected
  else
    match original with
    | c :: _ => if pyIsUpper c then pyCapitalize corrected else corrected
    | [] => corrected

/-- `Corrector._spell_correct_phrase`: correct each invalid word,
keeping track of whether anything changed; `None` when nothing did. -/
def Corrector.spell_correct_phrase (C : Corrector) (t : Text) : Option Text :=
  let words := pySplit t
  let pass := words.map (fun word =>
    let clean := Corrector.clean_word word
    if clean.isEmpty || C.is_valid_word clean then (word, false)
    else
      match C.spell_correct_word clean with
      | some correction =>
        if correction != pyLower clean then
          (Corrector.apply_casing word correction, true)
        else (word, false)
      | none => (word, false))
  if pass.any (·.2) then some (joinSpace (pass.map (·.1))) else none

/-- `Corrector._try_layout_swap_with_spell` — the layout-swap step.
In the `en_meant_ru` direction: mapped valid gives 0.95; else a valid
spell fix of the mapped text gives 0.9; else a validity score above 0.5
accepts the mapped text at that score.  In the `ru_meant_en` direction
only the 0.95 branch exists. -/
def Corrector.try_layout_swap_with_spell (C : Corrector) (t : Text) :
    Option (Text × ℚ) :=
  match detect_layout_mismatch t with
  | none => none
  | some .mixed => none
  | some .enMeantRu =>
    let mapped := map_en_to_ru t
    if C.is_valid_text mapped then some (mapped, mkRat 95 100)
    else
      let spellOk :=
        match C.spell_correct_phrase mapped with
        | some sp => if C.is_valid_text sp then some sp else none
        | none => none
      match spellOk with
      | some sp => some (sp, mkRat 9 10)
      | none =>
        let validity := C.text_validity_score mapped
        if validity > mkRat 1 2 then some (mapped, validity) else none
  | some .ruMeantEn =>
    let mapped := map_ru_to_en t
    if C.is_valid_text mapped then some (mapped, mkRat 95 100) else none

/-- `Corrector._try_mixed_layout`: remap towards the majority script;
valid gives 0.9, else a valid spell fix gives 0.85. -/
def Corrector.try_mixed_layout (C : Corrector) (t : Text) : Option (Text × ℚ) :=
  match detect_layout_mismatch t with
  | some .mixed =>
    let alphaChars := t.filter pyIsAlpha
    let ruCount := alphaChars.countP (fun c => RU_ALPHA.contains c || isCyrRange c)
    let enCount := alphaChars.countP (fun c => EN_ALPHA.contains (pyLowerChar c))
    let fixed := if ruCount > enCount then fix_mixed_layout t .ru
                 else fix_mixed_layout t .en
    if fixed != t then
      if C.is_valid_text fixed then some (fixed, mkRat 9 10)
      else
        match C.spell_correct_phrase fixed with
        | some sf => if C.is_valid_text sf then some (sf, mkRat 85 100) else none
        | none => none
    else none
  | _ => none

/-- `Corrector._try_spelling`: 0.8 when the per-word spelling pass
changed something. -/
def Corrector.try_spelling (C : Corrector) (t : Text) : Option (Text × ℚ) :=
  match C.spell_correct_phrase t with
  | some r => if r != t then some (r, mkRat 8 10) else none
  | none => none

/-- `Corrector._try_ai` — the semantic fallback.  The network provider
is consulted when `model == "api"` and a client is set; when its result
is falsy or equal to the input, control falls through to the local
provider. -/
def Corrector.try_ai (C : Corrector) (text context : Text) : Option (Text × ℚ) :=
  let viaTiny : Option (Text × ℚ) :=
    match C.tinyllm with
    | some tl =>
      match tl text context with
      | some r => if !r.isEmpty && r != text then some (r, mkRat 75 100) else none
      | none => none
    | none => none
  if C.config.model == "api" then
    match C.api_client with
    | some a =>
      match a text context with
      | some r => if !r.isEmpty && r != text then some (r, mkRat 7 10) else viaTiny
      | none => viaTiny
    | none => viaTiny
  else viaTiny

/-- Which providers `Corrector._try_ai` consults on a call, read off
the same control flow: `(remote consulted, local consulted)`.  The
remote is consulted when configured; the local is consulted whenever it
exists and the remote call did not return an accepted result. -/
def Corrector.try_ai_called (C : Corrector) (text context : Text) : Bool × Bool :=
  let apiCalled := C.config.model == "api" && C.api_client.isSome
  let apiAccepted := apiCalled &&
    (match C.api_client with
     | some a =>
       match a text context with
       | some r => !r.isEmpty && r != text
       | none => false
     | none => false)
  (apiCalled, !apiAccepted && C.tinyllm.isSome)

/-- `Corrector.correct(text, context)`: the strategy pipeline in strict
priority order. -/
def Corrector.correct (C : Corrector) (text context : Text) : Option (Text × ℚ) :=
  if text.isEmpty || (pyStrip text).isEmpty then none
  else if is_all_caps text then none
  else if C.is_valid_text text then none
  else
    match C.try_layout_swap_with_spell text with
    | some r => some r
    | none =>
      match C.try_mixed_layout text with
      | some r => some r
      | none =>
        match C.try_spelling text with
        | some r => some r
        | none => C.try_ai text context

/-- `Corrector.correct_phrase(words)`: the all-caps/validity vetoes,
then layout swap of the joined phrase plus one extra spelling pass over
the swapped result (confidence times 0.95 when that pass changes it). -/
def Corrector.correct_phrase (C : Corrector) (words : List Text) :
    Option (Text × ℚ) :=
  if words.isEmpty then none
  else
    let phrase := joinSpace words
    if is_all_caps phrase then none
    else if C.is_valid_text phrase then none
    else
      match C.try_layout_swap_with_spell phrase with
      | some (cp, conf) =>
        match C.spell_correct_phrase cp with
        | some sf =>
          if sf != cp then some (sf, ratMul conf (mkRat 95 100))
          else some (cp, conf)
        | none => some (cp, conf)
      | none => none

/-- `Corrector.add_context_word`: append to the recent-words list and
cap it at `_max_phrase_words = 10` by popping the front.  (Dead code in
the repository: the daemon never calls it.) -/
def Corrector.add_context_word (recent : List Text) (w : Text) : List Text :=
  let r := recent ++ [w]
  if r.length > 10 then r.drop 1 else r

/-! ## `rules.py` — the learned-suppression rule store

The on-disk JSON file is abstracted as a `RulesFile` value holding
exactly the two serialised components; `save`/`load` convert between
the store and the file. -/

/-- Python `dict.get(key, 0)` on an association list. -/
def rulesGet (rs : List (Text × Nat)) (k : Text) : Nat := (rs.lookup k).getD 0

/-- Python `dict[key] = v` on an association list. -/
def rulesSet : List (Text × Nat) → Text → Nat → List (Text × Nat)
  | [], k, v => [(k, v)]
  | (k0, v0) :: rest, k, v =>
    if k0 == k then (k0, v) :: rest else (k0, v0) :: rulesSet rest k v

/-- Python `set.add` on a list-backed set. -/
def setInsert (x : Text) (s : List Text) : List Text :=
  if s.contains x then s else s ++ [x]

/-- `RuleStore`: pattern to undo count, plus the suppressed set. -/
structure RuleStore where
  rules : List (Text × Nat)
  suppressed : List Text
  deriving DecidableEq, Repr

/-- The content of the persisted rules file. -/
structure RulesFile where
  undo_counts : List (Text × Nat)
  suppressed : List Text
  deriving DecidableEq, Repr

/-- `RuleStore.record_undo(original)`: increment the counter for the
stripped-lowercase pattern; at 3 or more move it into the suppressed
set.  Returns `(now suppressed, new store)`; the store is re-saved on
every call (side effect represented by `RuleStore.save`). -/
def RuleStore.record_undo (s : RuleStore) (original : Text) : Bool × RuleStore :=
  let key := pyLower (pyStrip original)
  let cnt := rulesGet s.rules key + 1
  let rules2 := rulesSet s.rules key cnt
  if cnt ≥ 3 then (true, ⟨rules2, setInsert key s.suppressed⟩)
  else (false, ⟨rules2, s.suppressed⟩)

/-- `RuleStore.is_suppressed(text)`. -/
def RuleStore.is_suppressed (s : RuleStore) (t : Text) : Bool :=
  s.suppressed.contains (pyLower (pyStrip t))

/-- `RuleStore.save`: serialise both components. -/
def RuleStore.save (s : RuleStore) : RulesFile := ⟨s.rules, s.suppressed⟩

/-- `RuleStore.load` from a present, well-formed rules file. -/
def RuleStore.load (f : RulesFile) : RuleStore := ⟨f.undo_counts, f.suppressed⟩

/-- `RuleStore.clear`. -/
def RuleStore.clear (_ : RuleStore) : RuleStore := ⟨[], []⟩

/-! ## `undo.py` — the bounded undo stack

The deque with `maxlen=50` is a list whose last element is the top of
the stack; appending to a full deque evicts the oldest entry. -/

/-- `CorrectionEntry` (the `context` field is never read and omitted;
`corrected` is mutated in place by rethink, which is not modelled). -/
structure CorrectionEntry where
  original : Text
  corrected : Text
  char_count : Nat
  deriving DecidableEq, Repr

/-- `UndoStack.push`: append, evicting the oldest entry beyond 50. -/
def UndoStack.push (st : List CorrectionEntry) (e : CorrectionEntry) :
    List CorrectionEntry :=
  if st.length ≥ 50 then st.drop 1 ++ [e] else st ++ [e]

/-! ## `buffer.py` — the text buffer -/

/-- `TextBuffer.WORD_BOUNDARIES` (space, tab, newline and the
punctuation set; `Char.ofNat` entries as in `PUNCT_CHARS`). -/
def WORD_BOUNDARIES : List Char :=
  [' ', Char.ofNat 9, Char.ofNat 10, '.', ',', ';', ':', '!', '?',
   '(', ')', '[', ']', Char.ofNat 123, Char.ofNat 125, '"',
   Char.ofNat 39, '/', '\\', '-', '=', '+', '@', '#', '$', '%',
   Char.ofNat 94, '&', '*', '~', Char.ofNat 96, '<', '>', '|']

/-- The buffer: the word under construction and the retained line
(a list of appended segments, as in the Python list of strings). -/
structure TextBuffer where
  current_word : Text
  current_line : List Text
  deriving DecidableEq, Repr

/-- `TextBuffer.add_char(char)`: on a boundary character emit the
completed word (or `None` when empty) and push word and boundary onto
the line; otherwise extend the current word. -/
def TextBuffer.add_char (b : TextBuffer) (c : Char) : Option Text × TextBuffer :=
  if WORD_BOUNDARIES.contains c then
    let word := b.current_word
    (if word.isEmpty then none else some word,
     ⟨[], b.current_line ++ [b.current_word, [c]]⟩)
  else (none, ⟨b.current_word ++ [c], b.current_line⟩)

/-- `TextBuffer.handle_backspace()`. -/
def TextBuffer.handle_backspace (b : TextBuffer) : TextBuffer :=
  if !b.current_word.isEmpty then ⟨b.current_word.dropLast, b.current_line⟩
  else ⟨b.current_word, b.current_line.dropLast⟩

/-- `TextBuffer.get_context()`: retained line plus the partial word. -/
def TextBuffer.get_context (b : TextBuffer) : Text :=
  b.current_line.flatten ++ b.current_word

/-- `TextBuffer.force_complete()`. -/
def TextBuffer.force_complete (b : TextBuffer) : Option Text × TextBuffer :=
  if b.current_word.isEmpty then (none, b)
  else (some b.current_word, ⟨[], b.current_line ++ [b.current_word]⟩)

/-! ## `daemon.py` — the daemon state machine

The daemon is modelled as a step function over an explicit state.  The
capture thread delivers events serially and every handler runs under
the daemon lock, so one handler invocation is one atomic step; the
debounce timer is a separate `timerFire` event that is a no-op when a
later keystroke cancelled it (`phrase_timer_pending = false`).  The
hard-timeout wrapper `_correct_with_timeout` is modelled as the direct
corrector call (a discarded slow result is indistinguishable from the
corrector returning `None`, which the abstract dictionaries can
produce).  `Replacer.replace_text` calls are recorded in an append-only
trace, and `corrector_calls` counts correction attempts.  The rethink,
toggle and polish hotkey handlers are not part of any claim and are not
modelled; navigation keys and the undo hotkey are. -/

/-- The `_input_state` field. -/
inductive InputState where
  | typing
  | word_finalized
  | idle
  | handoff
  deriving DecidableEq, Repr

/-- `_last_correction`: original, corrected output, wall-clock time. -/
structure LastCorrection where
  original : Text
  corrected : Text
  time : ℚ
  deriving DecidableEq, Repr

/-- The daemon state (the mutable fields of the `Daemon` class, plus
the observable traces). -/
structure Daemon where
  buffer : TextBuffer
  last_word_boundary : Text
  phrase_words : List Text
  phrase_total_len : Int
  last_correction : Option LastCorrection
  finalized_words : List Text
  input_state : InputState
  handoff_layout : Option Layout
  requested_layout : Option Layout
  undo_stack : List CorrectionEntry
  rules : RuleStore
  replacer_calls : List (Int × Text)
  corrector_calls : Nat
  phrase_timer_pending : Bool
  deriving DecidableEq, Repr

/-- The daemon state right after `Daemon.__init__`/`start` (with the
given persisted rule store). -/
def Daemon.init (rules : RuleStore) : Daemon :=
  { buffer := ⟨[], []⟩, last_word_boundary := [], phrase_words := [],
    phrase_total_len := 0, last_correction := none, finalized_words := [],
    input_state := .typing, handoff_layout := none, requested_layout := none,
    undo_stack := [], rules := rules, replacer_calls := [],
    corrector_calls := 0, phrase_timer_pending := false }

/-- `Daemon._is_idempotent(word)`: the word matches the last correction
output (exactly or case-insensitively) within 2 seconds. -/
def Daemon.is_idempotent (d : Daemon) (now : ℚ) (word : Text) : Bool :=
  match d.last_correction with
  | none => false
  | some lc =>
    (word == lc.corrected || pyLower word == pyLower lc.corrected) &&
    ratSub now lc.time < mkRat 2 1

/-- `Daemon._cancel_phrase_timer`. -/
def Daemon.cancel_phrase_timer (d : Daemon) : Daemon :=
  { d with phrase_timer_pending := false }

/-- `Daemon._schedule_phrase_correction`: arm the debounce timer when
at least two phrase words are pending. -/
def Daemon.schedule_phrase_correction (d : Daemon) : Daemon :=
  if d.phrase_words.length < 2 then d else { d with phrase_timer_pending := true }

/-- `Daemon._apply_word_correction(original, corrected)`: record the
last correction, extend the finalization guard, push the undo entry,
call the replacer, publish the layout-switch intent, enter handoff and
clear the buffer.  (The phrase list is handled by the caller.) -/
def Daemon.apply_word_correction (now : ℚ) (d : Daemon)
    (original corrected : Text) : Daemon :=
  { d with
    last_correction := some ⟨original, corrected, now⟩,
    finalized_words :=
      setInsert (pyLower corrected) (setInsert (pyLower original) d.finalized_words),
    undo_stack := UndoStack.push d.undo_stack ⟨original, corrected, corrected.length⟩,
    replacer_calls := d.replacer_calls ++
      [((original.length + 1 : Int), corrected ++ d.last_word_boundary)],
    requested_layout := detect_target_layout corrected,
    input_state := .handoff,
    handoff_layout := detect_target_layout corrected,
    buffer := ⟨[], []⟩ }

/-- `Daemon._try_correct_word(word)`: the idempotency, finalization and
suppression guards (each with its phrase bookkeeping), then the
corrector call and, on an accepted result, the applied correction. -/
def Daemon.try_correct_word (C : Corrector) (now : ℚ) (d : Daemon)
    (word : Text) : Daemon :=
  if d.is_idempotent now word then
    { d with phrase_words := [], phrase_total_len := 0 }
  else if d.finalized_words.contains (pyLower word) then
    { d with phrase_words := d.phrase_words ++ [word],
             phrase_total_len := d.phrase_total_len + (word.length + 1) }
  else if d.rules.is_suppressed word then
    { d with phrase_words := d.phrase_words ++ [word],
             phrase_total_len := d.phrase_total_len + (word.length + 1) }
  else
    let d1 := { d with phrase_words := d.phrase_words ++ [word],
                       phrase_total_len := d.phrase_total_len + (word.length + 1),
                       corrector_calls := d.corrector_calls + 1 }
    match C.correct word [] with
    | some (corrected, conf) =>
      if corrected != word && conf ≥ C.config.confidenceThreshold then
        let d2 := { d1 with phrase_words := d1.phrase_words.dropLast,
                            phrase_total_len := d1.phrase_total_len - (word.length + 1) }
        let d3 := Daemon.apply_word_correction now d2 word corrected
        { d3 with phrase_words := [], phrase_total_len := 0 }
      else d1
    | none => d1

/-- `Daemon._on_key_char(char)`: handoff routing (buffer only, exit on
a one-directional mismatch of the completed word), or the normal path
(state to typing, feed the buffer, on completion correct and arm the
phrase timer). -/
def Daemon.on_key_char (C : Corrector) (now : ℚ) (d : Daemon) (c : Char) : Daemon :=
  if !C.config.enabled then d
  else
    let d := d.cancel_phrase_timer
    if d.input_state = .handoff then
      match d.buffer.add_char c with
      | (some word, buf2) =>
        let d := { d with buffer := buf2, last_word_boundary := [c] }
        match detect_layout_mismatch word with
        | some .enMeantRu | some .ruMeantEn =>
          let d := { d with input_state := .word_finalized,
                            handoff_layout := none, finalized_words := [] }
          let d := Daemon.try_correct_word C now d word
          d.schedule_phrase_correction
        | _ =>
          { d with phrase_words := d.phrase_words ++ [word],
                   phrase_total_len := d.phrase_total_len + (word.length + 1) }
      | (none, buf2) => { d with buffer := buf2 }
    else
      let d := { d with input_state := .typing }
      match d.buffer.add_char c with
      | (some word, buf2) =>
        let d := { d with buffer := buf2, last_word_boundary := [c],
                          input_state := .word_finalized }
        let d := Daemon.try_correct_word C now d word
        d.schedule_phrase_correction
      | (none, buf2) => { d with buffer := buf2 }

/-- `Daemon._on_backspace`. -/
def Daemon.on_backspace (d : Daemon) : Daemon :=
  let d := d.cancel_phrase_timer
  { d with buffer := d.buffer.handle_backspace }

/-- The navigation branch of `Daemon._on_special`: cancel the timer,
clear buffer, phrase and finalized words, reset the state to typing
(and clear the corrector context list, which is dead state). -/
def Daemon.on_navigation_key (d : Daemon) : Daemon :=
  let d := d.cancel_phrase_timer
  { d with buffer := ⟨[], []⟩, phrase_words := [], phrase_total_len := 0,
           finalized_words := [], input_state := .typing }

/-- `Daemon._apply_phrase_correction(original, corrected)`. -/
def Daemon.apply_phrase_correction (now : ℚ) (d : Daemon)
    (original_phrase corrected_phrase : Text) : Daemon :=
  let corrected_words := pySplit corrected_phrase
  let lc := match corrected_words.getLast? with
    | some last => some (⟨original_phrase, last, now⟩ : LastCorrection)
    | none => d.last_correction
  let fw := (pySplit original_phrase ++ corrected_words).foldl
    (fun s w => setInsert (pyLower w) s) d.finalized_words
  { d with
    last_correction := lc,
    finalized_words := fw,
    undo_stack := UndoStack.push d.undo_stack
      ⟨original_phrase, corrected_phrase, corrected_phrase.length⟩,
    replacer_calls := d.replacer_calls ++
      [(d.phrase_total_len, corrected_phrase ++ d.last_word_boundary)],
    requested_layout := detect_target_layout corrected_phrase,
    input_state := .handoff,
    handoff_layout := detect_target_layout corrected_phrase,
    buffer := ⟨[], []⟩,
    phrase_words := [],
    phrase_total_len := 0 }

/-- `Daemon._deferred_phrase_correction` as the timer-fire event: a
no-op when cancelled; otherwise checks the state, snapshots the
phrase, runs phrase correction, re-checks the snapshot (trivially
unchanged in a serial step) and applies an accepted result.  The state
afterwards is idle — the final assignment overwrites the handoff state
that `_apply_phrase_correction` set. -/
def Daemon.deferred_phrase_correction (C : Corrector) (now : ℚ) (d : Daemon) :
    Daemon :=
  if !d.phrase_timer_pending then d
  else
    let d := { d with phrase_timer_pending := false }
    if d.input_state = .typing then d
    else
      let snap := d.phrase_words
      if snap.length < 2 then d
      else
        let d := { d with corrector_calls := d.corrector_calls + 1 }
        match C.correct_phrase snap with
        | none => { d with input_state := .idle }
        | some (cp, conf) =>
          let orig := joinSpace snap
          if d.phrase_words != snap then d
          else
            let d :=
              if cp != orig && conf ≥ C.config.confidenceThreshold then
                Daemon.apply_phrase_correction now d orig cp
              else d
            { d with input_state := .idle }

/-- `Daemon._do_undo`: pop the stack (no-op when empty), replace the
corrected text with the original via the replacer, and record the undo
against the rule store. -/
def Daemon.do_undo (d : Daemon) : Daemon :=
  match d.undo_stack.getLast? with
  | none => d
  | some e =>
    let d := { d with undo_stack := d.undo_stack.dropLast }
    let d := { d with replacer_calls := d.replacer_calls ++
      [((e.corrected.length + 1 : Int), e.original ++ txt " ")] }
    { d with rules := (d.rules.record_undo e.original).2 }

/-- The daemon events delivered by the capture collaborator and the
timer thread.  `navKey` stands for any of the navigation keysyms;
`undoKey` for the undo hotkey. -/
inductive DEvent where
  | key (c : Char)
  | backsp
  | navKey
  | timerFire
  | undoKey
  deriving DecidableEq, Repr

/-- One serialised daemon step at wall-clock time `now`. -/
def Daemon.step (C : Corrector) (now : ℚ) (d : Daemon) : DEvent → Daemon
  | .key c => d.on_key_char C now c
  | .backsp => d.on_backspace
  | .navKey => d.on_navigation_key
  | .timerFire => d.deferred_phrase_correction C now
  | .undoKey => d.do_undo

/-- Run the daemon over a timed event sequence. -/
def Daemon.run (C : Corrector) (d : Daemon) : List (DEvent × ℚ) → Daemon
  | [] => d
  | (e, t) :: rest => Daemon.run C (Daemon.step C t d e) rest

/-- Feed a text character by character at the given times. -/
def keyEvents (t : Text) (times : List ℚ) : List (DEvent × ℚ) :=
  t.zipWith (fun c tm => (DEvent.key c, tm)) times

/-! ## Concrete instances used by witnesses and counterexamples -/

/-- A concrete dictionary: a finite word list for `contains` and a
finite candidate table for `candidates`. -/
def mkDict (ws : List Text) (cs : List (Text × List Text)) : SpellDict :=
  { contains := fun w => ws.contains w,
    candidates := fun w => ((cs.lookup w).getD []) }

/-- A default configuration: both languages enabled, local model,
threshold 0.6 (the repository default). -/
def cfgBoth : Config :=
  { enabled := true, langEn := true, langRu := true, model := "tinyllm",
    confidenceThreshold := mkRat 6 10 }

/-- A configuration with the Russian language disabled. -/
def cfgNoRu : Config :=
  { enabled := true, langEn := true, langRu := false, model := "tinyllm",
    confidenceThreshold := mkRat 6 10 }

/-- A configuration selecting the network provider. -/
def cfgApi : Config :=
  { enabled := true, langEn := true, langRu := true, model := "api",
    confidenceThreshold := mkRat 6 10 }

/-- A corrector whose Russian dictionary contains only the word
`привет`. -/
def corrHello : Corrector :=
  { config := cfgBoth, tinyllm := none, api_client := none,
    spell_en := mkDict [] [], spell_ru := mkDict [txt ("привет")] [] }

/-- A corrector whose English dictionary contains only `dog`. -/
def corrDog : Corrector :=
  { config := cfgBoth, tinyllm := none, api_client := none,
    spell_en := mkDict [txt ("dog")] [], spell_ru := mkDict [] [] }

/-- The corrector of the C2 counterexample: Russian disabled, the
English dictionary holds `dog`, the Russian dictionary holds the
pattern `вщп` (which maps to `dog` on the English layout) and offers
it as a spelling candidate for `вщб`. -/
def corrFeedback : Corrector :=
  { config := cfgNoRu, tinyllm := none, api_client := none,
    spell_en := mkDict [txt ("dog")] [],
    spell_ru := mkDict [txt ("вщп")] [(txt ("вщб"), [txt ("вщп")])] }

/-- The corrector of the C1 counterexample: English dictionary `dog`,
`cat`; empty Russian dictionary; no candidates anywhere. -/
def corrScore : Corrector :=
  { config := cfgBoth, tinyllm := none, api_client := none,
    spell_en := mkDict [txt ("dog"), txt ("cat")] [],
    spell_ru := mkDict [] [] }

/-- The corrector of the C5 counterexample: the network provider is
configured but returns nothing, while the local provider always
answers `ww`. -/
def corrTwoProviders : Corrector :=
  { config := cfgApi,
    tinyllm := some (fun _ _ => some (txt ("ww"))),
    api_client := some (fun _ _ => none),
    spell_en := mkDict [] [], spell_ru := mkDict [] [] }

/-- The daemon state after typing `ghbdtn ` (boundary at time 1) from
the initial state with the `corrHello` corrector: the layout swap to
`привет` has been applied, one replacer call was made, and the daemon
is in handoff. -/
def afterHello : Daemon :=
  Daemon.run corrHello (Daemon.init ⟨[], []⟩)
    (keyEvents (txt ("ghbdtn ")) [0, 0, 0, 0, 0, 0, 1])

/-- A run that finalizes eleven copies of a valid word (`dog`), none
of which is corrected. -/
def elevenDogs : Daemon :=
  Daemon.run corrDog (Daemon.init ⟨[], []⟩)
    (keyEvents (txt ("dog dog dog dog dog dog dog dog dog dog dog "))
      (List.replicate 44 0))

/-! ## Helper lemmas -/

theorem rulesGet_rulesSet (rs : List (Text × Nat)) (k : Text) (v : Nat) :
    rulesGet (rulesSet rs k v) k = v := by
  induction rs with
  | nil => simp [rulesSet, rulesGet, List.lookup]
  | cons p rest ih =>
    obtain ⟨k0, v0⟩ := p
    by_cases h : k0 = k
    · subst h
      simp [rulesSet, rulesGet, List.lookup]
    · have hne : (k0 == k) = false := by simpa using h
      have hne2 : (k == k0) = false := by
        simp only [beq_eq_false_iff_ne, ne_eq]
        exact fun hk => h hk.symm
      simp [rulesSet, rulesGet, List.lookup, hne, hne2] at ih ⊢
      exact ih

theorem textContains_iff (l : List Text) (a : Text) :
    l.contains a = true ↔ a ∈ l := by
  simp [List.contains, List.elem_iff]

theorem mem_setInsert_self (x : Text) (s : List Text) : x ∈ setInsert x s := by
  unfold setInsert
  by_cases h : s.contains x = true
  · rw [if_pos h]
    exact (textContains_iff s x).mp h
  · rw [if_neg (by simpa using h)]
    simp

theorem setInsert_contains_self (x : Text) (s : List Text) :
    (setInsert x s).contains x = true :=
  (textContains_iff _ x).mpr (mem_setInsert_self x s)

theorem lookupMem {l : List (Char × Char)} {k v : Char}
    (h : l.lookup k = some v) : (k, v) ∈ l := by
  induction l with
  | nil => simp [List.lookup] at h
  | cons p rest ih =>
    obtain ⟨k0, v0⟩ := p
    rw [List.lookup] at h
    by_cases hk : (k == k0) = true
    · simp only [hk] at h
      obtain rfl := (beq_iff_eq).mp hk
      cases h
      exact List.mem_cons_self _ _
    · simp only [Bool.not_eq_true] at hk
      simp only [hk] at h
      exact List.mem_cons_of_mem _ (ih h)

theorem EN_TO_RU_values_invert :
    ∀ q ∈ EN_TO_RU, RU_TO_EN.lookup q.2 = some q.1 := by decide

/-! ## Claims C7 to C10 -/

/-- C7 — Suppression threshold: starting from a rule store with no
record of the pattern `p`, after exactly three `record_undo(p)` calls
`is_suppressed(p)` holds and survives a save/load round trip; after
only two calls it does not hold. -/
theorem C7_suppression_threshold (s : RuleStore) (p : Text)
    (h1 : rulesGet s.rules (pyLower (pyStrip p)) = 0)
    (h2 : s.suppressed.contains (pyLower (pyStrip p)) = false) :
    RuleStore.is_suppressed
      (((s.record_undo p).2.record_undo p).2.record_undo p).2 p = true ∧
    RuleStore.is_suppressed
      (RuleStore.load (RuleStore.save
        (((s.record_undo p).2.record_undo p).2.record_undo p).2)) p = true ∧
    RuleStore.is_suppressed ((s.record_undo p).2.record_undo p).2 p = false := by
  have hs1 : (s.record_undo p).2 =
      ⟨rulesSet s.rules (pyLower (pyStrip p)) 1, s.suppressed⟩ := by
    simp [RuleStore.record_undo, h1]
  have hs2 : ((s.record_undo p).2.record_undo p).2 =
      ⟨rulesSet (rulesSet s.rules (pyLower (pyStrip p)) 1)
        (pyLower (pyStrip p)) 2, s.suppressed⟩ := by
    rw [hs1]
    simp [RuleStore.record_undo, rulesGet_rulesSet]
  have hs3 : (((s.record_undo p).2.record_undo p).2.record_undo p).2 =
      ⟨rulesSet (rulesSet (rulesSet s.rules (pyLower (pyStrip p)) 1)
        (pyLower (pyStrip p)) 2) (pyLower (pyStrip p)) 3,
       setInsert (pyLower (pyStrip p)) s.suppressed⟩ := by
    rw [hs2]
    simp [RuleStore.record_undo, rulesGet_rulesSet]
  refine ⟨?_, ?_, ?_⟩
  · rw [hs3]
    simpa [RuleStore.is_suppressed] using mem_setInsert_self _ _
  · rw [hs3]
    simpa [RuleStore.save, RuleStore.load, RuleStore.is_suppressed] using
      mem_setInsert_self _ _
  · rw [hs2]
    simp only [RuleStore.is_suppressed]
    exact h2

/-- Witness for C7 at the empty store and the pattern `Ghbdtn`. -/
theorem C7_suppression_threshold_witness :
    RuleStore.is_suppressed
      ((((RuleStore.mk [] []).record_undo (txt ("Ghbdtn"))).2.record_undo
        (txt ("Ghbdtn"))).2.record_undo (txt ("Ghbdtn"))).2 (txt ("Ghbdtn")) = true ∧
    RuleStore.is_suppressed
      (RuleStore.load (RuleStore.save
        ((((RuleStore.mk [] []).record_undo (txt ("Ghbdtn"))).2.record_undo
          (txt ("Ghbdtn"))).2.record_undo (txt ("Ghbdtn"))).2)) (txt ("Ghbdtn")) = true ∧
    RuleStore.is_suppressed
      (((RuleStore.mk [] []).record_undo (txt ("Ghbdtn"))).2.record_undo
        (txt ("Ghbdtn"))).2 (txt ("Ghbdtn")) = false :=
  C7_suppression_threshold ⟨[], []⟩ (txt ("Ghbdtn")) (by decide) (by decide)

/-- C8 — CapsLock veto: any text with more than one alphabetic
character, all uppercase, is never corrected (for every configuration,
dictionary and provider — the veto precedes every strategy), and
`is_all_caps` is true exactly for such texts. -/
theorem C8_all_caps_veto (C : Corrector) (t ctx : Text)
    (h1 : 1 < (t.filter pyIsAlpha).length)
    (h2 : ∀ ch ∈ t.filter pyIsAlpha, pyIsUpper ch = true) :
    C.correct t ctx = none ∧ is_all_caps t = true ∧
    (∀ u : Text, is_all_caps u = true ↔
      (1 < (u.filter pyIsAlpha).length ∧
       ∀ ch ∈ u.filter pyIsAlpha, pyIsUpper ch = true)) := by
  have hcap : ∀ u : Text, is_all_caps u = true ↔
      (1 < (u.filter pyIsAlpha).length ∧
       ∀ ch ∈ u.filter pyIsAlpha, pyIsUpper ch = true) := by
    intro u
    simp only [is_all_caps, Bool.and_eq_true, decide_eq_true_eq,
      List.all_eq_true, gt_iff_lt]
  have hc : is_all_caps t = true := (hcap t).mpr ⟨h1, h2⟩
  refine ⟨?_, hc, hcap⟩
  unfold Corrector.correct
  by_cases hg : (t.isEmpty || (pyStrip t).isEmpty) = true
  · simp [hg]
  · simp [hg, hc]

/-- Witness for C8 at `QQ`. -/
theorem C8_all_caps_veto_witness :
    corrHello.correct (txt ("QQ")) [] = none ∧
    is_all_caps (txt ("QQ")) = true :=
  ⟨(C8_all_caps_veto corrHello (txt ("QQ")) [] (by decide) (by decide)).1,
   (C8_all_caps_veto corrHello (txt ("QQ")) [] (by decide) (by decide)).2.1⟩

/-- C9 — Layout round trip: for texts built only from characters that
`EN_TO_RU` maps (the mapped characters of the spec), mapping to the
Russian layout and back is the identity. -/
theorem C9_round_trip (t : Text)
    (h : ∀ ch ∈ t, (EN_TO_RU.lookup ch).isSome = true) :
    map_ru_to_en (map_en_to_ru t) = t := by
  induction t with
  | nil => rfl
  | cons c rest ih =>
    have hc : (EN_TO_RU.lookup c).isSome = true := h c (List.mem_cons_self _ _)
    obtain ⟨v, hv⟩ := Option.isSome_iff_exists.mp hc
    have hinv : RU_TO_EN.lookup v = some c :=
      EN_TO_RU_values_invert (c, v) (lookupMem hv)
    have hrest := ih (fun ch hm => h ch (List.mem_cons_of_mem _ hm))
    have hchar : ruToEnChar (enToRuChar c) = c := by
      simp [enToRuChar, ruToEnChar, hv, hinv]
    calc map_ru_to_en (map_en_to_ru (c :: rest))
        = ruToEnChar (enToRuChar c) :: map_ru_to_en (map_en_to_ru rest) := rfl
      _ = c :: rest := by rw [hchar, hrest]

/-- Witness for C9 at `ghbdtn`. -/
theorem C9_round_trip_witness :
    map_ru_to_en (map_en_to_ru (txt ("ghbdtn"))) = txt ("ghbdtn") :=
  C9_round_trip (txt ("ghbdtn")) (by decide)

/-- C10 — Blank input: an empty or all-whitespace text is never
corrected.  The corrector (configuration, dictionaries and providers)
is universally quantified, so the result cannot depend on any of them:
no strategy is consulted. -/
theorem C10_blank_input (C : Corrector) (t ctx : Text)
    (h : t = [] ∨ ∀ ch ∈ t, pyIsSpace ch = true) :
    C.correct t ctx = none := by
  have hg : (t.isEmpty || (pyStrip t).isEmpty) = true := by
    rcases h with h | h
    · subst h; rfl
    · have hd : t.dropWhile pyIsSpace = [] := by
        rw [List.dropWhile_eq_nil_iff]
        exact fun x hx => h x hx
      simp [pyStrip, hd]
  unfold Corrector.correct
  simp [hg]

/-- Witness for C10 at a two-space text. -/
theorem C10_blank_input_witness : corrHello.correct (txt ("  ")) [] = none :=
  C10_blank_input corrHello (txt ("  ")) [] (by decide)

/-! ## Claim C1 — the layout-swap step -/

theorem detect_some_not_blank {t : Text} {m : Mismatch}
    (h : detect_layout_mismatch t = some m) :
    t.isEmpty = false ∧ (pyStrip t).isEmpty = false := by
  unfold detect_layout_mismatch at h
  by_cases hs : (pyStrip t).isEmpty = true
  · simp [hs] at h
  · have hs' : (pyStrip t).isEmpty = false := by simpa using hs
    refine ⟨?_, hs'⟩
    cases t with
    | nil => simp [pyStrip] at hs'
    | cons _ _ => rfl

theorem correct_of_layout_swap (C : Corrector) (t ctx : Text)
    (r : Text × ℚ)
    (hg1 : (t.isEmpty || (pyStrip t).isEmpty) = false)
    (hcaps : is_all_caps t = false)
    (hvalid : C.is_valid_text t = false)
    (hsw : C.try_layout_swap_with_spell t = some r) :
    C.correct t ctx = some r := by
  unfold Corrector.correct
  simp [hg1, hcaps, hvalid, hsw]

/-- C1 (amended) — The layout-swap step of `correct` is asymmetric.
In the `en_meant_ru` direction it follows the full ladder of the spec:
mapped valid gives `(mapped, 0.95)`; otherwise a valid spell fix of the
mapped text gives `(fixed, 0.90)`; otherwise a validity score above 0.5
gives `(mapped, score)`.  In the `ru_meant_en` direction only the first
branch exists: mapped valid gives `(mapped, 0.95)`, and otherwise the
step yields nothing and `correct` falls through to the later
strategies. -/
theorem C1_layout_swap_directions (C : Corrector) (t ctx : Text)
    (hcaps : is_all_caps t = false)
    (hvalid : C.is_valid_text t = false) :
    (detect_layout_mismatch t = some .enMeantRu →
      (C.is_valid_text (map_en_to_ru t) = true →
        C.correct t ctx = some (map_en_to_ru t, mkRat 95 100)) ∧
      (∀ sp, C.is_valid_text (map_en_to_ru t) = false →
        C.spell_correct_phrase (map_en_to_ru t) = some sp →
        C.is_valid_text sp = true →
        C.correct t ctx = some (sp, mkRat 9 10)) ∧
      (C.is_valid_text (map_en_to_ru t) = false →
        (∀ sp, C.spell_correct_phrase (map_en_to_ru t) = some sp →
          C.is_valid_text sp = false) →
        C.text_validity_score (map_en_to_ru t) > mkRat 1 2 →
        C.correct t ctx =
          some (map_en_to_ru t, C.text_validity_score (map_en_to_ru t)))) ∧
    (detect_layout_mismatch t = some .ruMeantEn →
      C.is_valid_text (map_ru_to_en t) = true →
      C.correct t ctx = some (map_ru_to_en t, mkRat 95 100)) := by
  constructor
  · intro hdet
    have hg1 : (t.isEmpty || (pyStrip t).isEmpty) = false := by
      have h := detect_some_not_blank hdet
      simp [h.1, h.2]
    refine ⟨?_, ?_, ?_⟩
    · intro hv
      refine correct_of_layout_swap C t ctx _ hg1 hcaps hvalid ?_
      unfold Corrector.try_layout_swap_with_spell
      rw [hdet]
      simp [hv]
    · intro sp hv hsp hspv
      refine correct_of_layout_swap C t ctx _ hg1 hcaps hvalid ?_
      unfold Corrector.try_layout_swap_with_spell
      rw [hdet]
      simp [hv, hsp, hspv]
    · intro hv hspfail hscore
      refine correct_of_layout_swap C t ctx _ hg1 hcaps hvalid ?_
      unfold Corrector.try_layout_swap_with_spell
      rw [hdet]
      have hok : (match C.spell_correct_phrase (map_en_to_ru t) with
          | some sp => if C.is_valid_text sp = true then some sp else none
          | none => none) = (none : Option Text) := by
        cases hsp : C.spell_correct_phrase (map_en_to_ru t) with
        | none => rfl
        | some sp => simp [hspfail sp hsp]
      simp only [hv, Bool.false_eq_true, if_false]
      simp only [hok]
      rw [if_pos hscore]
  · intro hdet hv
    have hg1 : (t.isEmpty || (pyStrip t).isEmpty) = false := by
      have h := detect_some_not_blank hdet
      simp [h.1, h.2]
    refine correct_of_layout_swap C t ctx _ hg1 hcaps hvalid ?_
    unfold Corrector.try_layout_swap_with_spell
    rw [hdet]
    simp [hv]

/-- C1 counterexample — `вщп сфе ййй` is a one-directional
`ru_meant_en` mismatch whose mapped form `dog cat qqq` is invalid, has
no spelling fix, and scores 2/3 > 0.5, yet `correct` returns `None`
instead of the `(mapped, score)` the claim requires in both
directions. -/
theorem C1_layout_swap_counterexample :
    detect_layout_mismatch (txt ("вщп сфе ййй")) = some .ruMeantEn ∧
    is_all_caps (txt ("вщп сфе ййй")) = false ∧
    corrScore.is_valid_text (txt ("вщп сфе ййй")) = false ∧
    corrScore.is_valid_text (map_ru_to_en (txt ("вщп сфе ййй"))) = false ∧
    corrScore.spell_correct_phrase (map_ru_to_en (txt ("вщп сфе ййй"))) = none ∧
    corrScore.text_validity_score (map_ru_to_en (txt ("вщп сфе ййй"))) = mkRat 2 3 ∧
    mkRat 2 3 > mkRat 1 2 ∧
    corrScore.correct (txt ("вщп сфе ййй")) [] = none := by decide

/-- Witness for C1 (amended), first branch of the en direction. -/
theorem C1_layout_swap_directions_witness :
    corrHello.correct (txt ("ghbdtn")) [] = some (txt ("привет"), mkRat 95 100) :=
  ((C1_layout_swap_directions corrHello (txt ("ghbdtn")) []
    (by decide) (by decide)).1 (by decide)).1 (by decide)

/-! ## Claim C2 — no self-feedback -/

/-- C2 (amended) — No self-feedback for validated corrections: when
`correct(W)` returns `(C, conf)` and `C` is valid text for the enabled
dictionaries — which is the case for every layout-swap and mixed-layout
result except the score fallback — then `correct(C)` returns `None`.
The spelling and provider steps can return non-validated output, for
which a second correction is possible (see the counterexample). -/
theorem C2_no_self_feedback_amended (C : Corrector) (W Cw ctx ctx2 : Text)
    (conf : ℚ)
    (h1 : C.correct W ctx = some (Cw, conf))
    (h2 : C.is_valid_text Cw = true) :
    C.correct Cw ctx2 = none := by
  unfold Corrector.correct
  by_cases hg : (Cw.isEmpty || (pyStrip Cw).isEmpty) = true
  · simp [hg]
  · by_cases hc : is_all_caps Cw = true
    · simp [hg, hc]
    · simp [hg, hc, h2]

/-- C2 counterexample — with Russian disabled, `correct` still consults
the Russian spelling dictionary: `вщб` is spell-corrected to `вщп`
(confidence 0.8), and feeding that output back yields a further
correction `(dog, 0.95)` instead of `None`. -/
theorem C2_no_self_feedback_counterexample :
    corrFeedback.correct (txt ("вщб")) [] = some (txt ("вщп"), mkRat 8 10) ∧
    corrFeedback.correct (txt ("вщп")) [] = some (txt ("dog"), mkRat 95 100) := by
  decide

/-- Witness for C2 (amended): a 0.95 layout-swap correction is valid
and therefore not re-corrected. -/
theorem C2_no_self_feedback_witness :
    corrHello.correct (txt ("ghbdtn")) [] = some (txt ("привет"), mkRat 95 100) ∧
    corrHello.correct (txt ("привет")) [] = none :=
  ⟨by decide,
   C2_no_self_feedback_amended corrHello (txt ("ghbdtn")) (txt ("привет"))
     [] [] (mkRat 95 100) (by decide) (by decide)⟩

/-! ## Claim C5 — semantic provider selection -/

/-- C5 (amended) — Provider selection in the semantic fallback: the
network provider is consulted exactly when it is configured
(`model == "api"` and a client is set); the local provider is consulted
whenever it exists and the network call did not produce an accepted
result — so both providers can be consulted on one call.  Accepted
results always differ from the input, with confidence 0.70 from the
network provider and 0.75 from the local one. -/
theorem C5_semantic_providers_amended (C : Corrector) (text ctx : Text) :
    ((C.try_ai_called text ctx).1 = true ↔
      (C.config.model = "api" ∧ C.api_client.isSome = true)) ∧
    ((C.try_ai_called text ctx).2 = false ↔
      (C.tinyllm.isSome = false ∨
        ∃ a r, C.api_client = some a ∧ C.config.model = "api" ∧
          a text ctx = some r ∧ r ≠ [] ∧ r ≠ text)) ∧
    (∀ r c, C.try_ai text ctx = some (r, c) →
      r ≠ text ∧ (c = mkRat 7 10 ∨ c = mkRat 75 100)) := by
  have tinyCase : ∀ r c,
      (match C.tinyllm with
       | some tl =>
         match tl text ctx with
         | some r0 => if !r0.isEmpty && r0 != text
                      then some (r0, mkRat 75 100) else none
         | none => none
       | none => (none : Option (Text × ℚ))) = some (r, c) →
      r ≠ text ∧ (c = mkRat 7 10 ∨ c = mkRat 75 100) := by
    intro r c h
    cases htl : C.tinyllm with
    | none =>
      simp only [htl] at h
      exact Option.noConfusion h
    | some tl =>
      simp only [htl] at h
      cases hr : tl text ctx with
      | none =>
        simp only [hr] at h
        exact Option.noConfusion h
      | some r0 =>
        simp only [hr] at h
        by_cases hacc : (!r0.isEmpty && r0 != text) = true
        · rw [if_pos hacc] at h
          rw [Option.some.injEq, Prod.mk.injEq] at h
          obtain ⟨hr1, hc1⟩ := h
          subst hr1
          subst hc1
          have hne : r0 ≠ text := by
            have := (Bool.and_eq_true _ _).mp hacc
            exact bne_iff_ne.mp this.2
          exact ⟨hne, Or.inr rfl⟩
        · rw [if_neg hacc] at h
          exact Option.noConfusion h
  refine ⟨?_, ?_, ?_⟩
  · unfold Corrector.try_ai_called
    dsimp only
    simp [Bool.and_eq_true, beq_iff_eq]
  · unfold Corrector.try_ai_called
    dsimp only
    cases hapi : C.api_client with
    | none => simp [hapi]
    | some a =>
      cases hr : a text ctx with
      | none => simp [hapi, hr]
      | some r =>
        by_cases hm : C.config.model = "api"
        · by_cases hacc : (!r.isEmpty && r != text) = true
          · have h1 : r ≠ [] := by
              have hp := (Bool.and_eq_true _ _).mp hacc
              intro hnil
              rw [hnil] at hp
              simp at hp
            have h2 : r ≠ text := bne_iff_ne.mp ((Bool.and_eq_true _ _).mp hacc).2
            simp only [hapi, hr, hm, hacc, beq_self_eq_true, Option.isSome_some,
              Bool.and_self, Bool.true_and, Bool.and_true, Bool.not_true,
              Bool.false_and, Bool.false_eq_true]
            constructor
            · intro _
              exact Or.inr ⟨a, r, rfl, trivial, hr, h1, h2⟩
            · intro _
              trivial
          · have haccf : (!r.isEmpty && r != text) = false := by
              simpa using hacc
            simp only [hapi, hr, hm, haccf, beq_self_eq_true, Option.isSome_some,
              Bool.and_self, Bool.true_and, Bool.and_false, Bool.not_false,
              Bool.true_and]
            constructor
            · exact fun h => Or.inl h
            · rintro (h | ⟨a2, r2, ha2, hm2, hr2, hn1, hn2⟩)
              · exact h
              · cases ha2
                rw [hr] at hr2
                cases hr2
                exfalso
                apply hacc
                refine (Bool.and_eq_true _ _).mpr ⟨?_, bne_iff_ne.mpr hn2⟩
                have hre : r.isEmpty = false := by
                  cases hre : r.isEmpty
                  · rfl
                  · exact absurd (List.isEmpty_iff.mp hre) hn1
                simp [hre]
        · have hmf : (C.config.model == "api") = false := by
            simpa [beq_iff_eq] using hm
          simp [hapi, hr, hmf, hm]
  · intro r c h
    unfold Corrector.try_ai at h
    dsimp only at h
    by_cases hm : (C.config.model == "api") = true
    · rw [if_pos hm] at h
      cases hapi : C.api_client with
      | none => simp only [hapi] at h; exact tinyCase r c h
      | some a =>
        simp only [hapi] at h
        cases hr : a text ctx with
        | none => simp only [hr] at h; exact tinyCase r c h
        | some r0 =>
          simp only [hr] at h
          by_cases hacc : (!r0.isEmpty && r0 != text) = true
          · rw [if_pos hacc] at h
            rw [Option.some.injEq, Prod.mk.injEq] at h
            obtain ⟨hr1, hc1⟩ := h
            subst hr1
            subst hc1
            have hne : r0 ≠ text := by
              have := (Bool.and_eq_true _ _).mp hacc
              exact bne_iff_ne.mp this.2
            exact ⟨hne, Or.inl rfl⟩
          · rw [if_neg hacc] at h
            exact tinyCase r c h
    · rw [if_neg hm] at h
      exact tinyCase r c h

/-- C5 counterexample — with the network provider configured but
returning nothing, the local provider is consulted on the same call and
its answer is returned: both providers are consulted at once, refuting
"never both providers on the same call". -/
theorem C5_semantic_providers_counterexample :
    corrTwoProviders.config.model = "api" ∧
    corrTwoProviders.api_client.isSome = true ∧
    corrTwoProviders.try_ai_called (txt ("qq")) [] = (true, true) ∧
    corrTwoProviders.try_ai (txt ("qq")) [] = some (txt ("ww"), mkRat 75 100) := by
  decide

/-- Witness for C5 (amended): the accepted result of the two-provider
instance differs from the input and carries one of the two
confidences. -/
theorem C5_semantic_providers_witness :
    txt ("ww") ≠ txt ("qq") ∧
    (mkRat 75 100 = mkRat 7 10 ∨ mkRat 75 100 = mkRat 75 100) :=
  (C5_semantic_providers_amended corrTwoProviders (txt ("qq")) []).2.2
    (txt ("ww")) (mkRat 75 100) (by decide)

/-! ## Claim C3 — the phrase length bound -/

set_option maxRecDepth 40000 in
/-- C3 evidence — Eleven finalized, individually-uncorrected words are
reachable in the daemon phrase list: typing `dog ` eleven times (every
`dog` is valid, so no correction fires) leaves eleven words in
`_phrase_words`, violating the claimed bound of 10.  The bound exists
only in the corrector dead code (`add_context_word`, never called by
the daemon), whose cap is proved next to the violation. -/
theorem C3_phrase_bound_violation :
    elevenDogs.phrase_words.length = 11 ∧ 10 < elevenDogs.phrase_words.length ∧
    (Corrector.add_context_word
      [txt ("a"), txt ("b"), txt ("c"), txt ("d"), txt ("e"), txt ("f"),
       txt ("g"), txt ("h"), txt ("i"), txt ("j")] (txt ("k"))).length = 10 := by
  decide

/-! ## Claim C4 — clearing FinalizedWords, LastCorrection and Phrase -/

/-- Arming the phrase timer does not touch the last-correction slot. -/
theorem schedule_keeps_lc (d : Daemon) :
    (d.schedule_phrase_correction).last_correction = d.last_correction := by
  unfold Daemon.schedule_phrase_correction
  split <;> rfl

/-- The word-correction attempt never clears the last-correction slot
(it only overwrites it on an applied correction). -/
theorem try_correct_word_keeps_lc (C : Corrector) (now : ℚ) (d : Daemon)
    (w : Text) (h : d.last_correction.isSome = true) :
    (Daemon.try_correct_word C now d w).last_correction.isSome = true := by
  unfold Daemon.try_correct_word Daemon.apply_word_correction
  repeat' split
  all_goals simp_all

/-- The last-correction slot is only ever written, never cleared: every
daemon step preserves `isSome` of `last_correction`. -/
theorem step_preserves_last_correction (C : Corrector) (now : ℚ)
    (d : Daemon) (e : DEvent)
    (h : d.last_correction.isSome = true) :
    (Daemon.step C now d e).last_correction.isSome = true := by
  cases e with
  | key c =>
    show (Daemon.on_key_char C now d c).last_correction.isSome = true
    unfold Daemon.on_key_char Daemon.cancel_phrase_timer
    dsimp only
    repeat' split
    all_goals
      first
      | exact h
      | simpa using h
      | (rw [schedule_keeps_lc]; apply try_correct_word_keeps_lc; simpa using h)
  | backsp =>
    simpa [Daemon.step, Daemon.on_backspace, Daemon.cancel_phrase_timer] using h
  | navKey =>
    simpa [Daemon.step, Daemon.on_navigation_key, Daemon.cancel_phrase_timer] using h
  | timerFire =>
    show (Daemon.deferred_phrase_correction C now d).last_correction.isSome = true
    unfold Daemon.deferred_phrase_correction Daemon.apply_phrase_correction
    dsimp only
    repeat' split
    all_goals simp_all
  | undoKey =>
    show (Daemon.do_undo d).last_correction.isSome = true
    unfold Daemon.do_undo
    repeat' split
    all_goals simp_all

/-- C4 (amended) — What the code actually clears together: a
navigation key clears Phrase and FinalizedWords (and the buffer, with
the state reset to typing) in one step, but the LastCorrection slot is
left untouched by that step — and is never cleared by any step, only
overwritten. -/
theorem C4_cleared_together_amended (C : Corrector) (now : ℚ) (d : Daemon)
    (e : DEvent) :
    ((Daemon.step C now d .navKey).phrase_words = [] ∧
     (Daemon.step C now d .navKey).finalized_words = [] ∧
     (Daemon.step C now d .navKey).buffer = ⟨[], []⟩ ∧
     (Daemon.step C now d .navKey).input_state = .typing ∧
     (Daemon.step C now d .navKey).last_correction = d.last_correction) ∧
    (d.last_correction.isSome = true →
      (Daemon.step C now d e).last_correction.isSome = true) := by
  constructor
  · exact ⟨rfl, rfl, rfl, rfl, rfl⟩
  · exact step_preserves_last_correction C now d e

/-- C4 counterexample — in the reachable state right after the
`ghbdtn` correction, a navigation key clears the (non-empty)
FinalizedWords set and the Phrase, but the LastCorrection slot stays
set: the three pieces are not cleared together in that step. -/
theorem C4_cleared_together_counterexample :
    afterHello.finalized_words ≠ [] ∧
    afterHello.last_correction.isSome = true ∧
    (Daemon.step corrHello 2 afterHello .navKey).finalized_words = [] ∧
    (Daemon.step corrHello 2 afterHello .navKey).last_correction.isSome = true := by
  decide

/-- Witness for C4 (amended) at the state after the `ghbdtn`
correction. -/
theorem C4_cleared_together_witness :
    (Daemon.step corrHello 2 afterHello .navKey).phrase_words = [] ∧
    (Daemon.step corrHello 2 afterHello .navKey).last_correction.isSome = true :=
  ⟨(C4_cleared_together_amended corrHello 2 afterHello .navKey).1.1,
   (C4_cleared_together_amended corrHello 2 afterHello .navKey).2 (by decide)⟩

/-! ## Claim C6 — the idempotency guard -/

/-- Running the daemon over concatenated event lists is running it over
each in turn. -/
theorem run_append (C : Corrector) (d : Daemon) (e1 e2 : List (DEvent × ℚ)) :
    Daemon.run C d (e1 ++ e2) = Daemon.run C (Daemon.run C d e1) e2 := by
  induction e1 generalizing d with
  | nil => rfl
  | cons ev rest ih =>
    obtain ⟨ev', t⟩ := ev
    show Daemon.run C (Daemon.step C t d ev') (rest ++ e2) = _
    exact ih (Daemon.step C t d ev')

/-- A disabled daemon ignores key events. -/
theorem run_disabled (C : Corrector) (hC : C.config.enabled = false)
    (d : Daemon) (w : Text) (times : List ℚ) :
    Daemon.run C d (keyEvents w times) = d := by
  induction w generalizing d times with
  | nil => cases times <;> rfl
  | cons ch rest ih =>
    cases times with
    | nil => rfl
    | cons t ts =>
      have hstep : Daemon.step C t d (.key ch) = d := by
        show Daemon.on_key_char C t d ch = d
        unfold Daemon.on_key_char
        simp [hC]
      show Daemon.run C (Daemon.step C t d (.key ch)) (keyEvents rest ts) = d
      rw [hstep]
      exact ih d ts

/-- Arming the phrase timer changes no other field. -/
theorem schedule_keeps_calls (d : Daemon) :
    (d.schedule_phrase_correction).replacer_calls = d.replacer_calls ∧
    (d.schedule_phrase_correction).corrector_calls = d.corrector_calls := by
  unfold Daemon.schedule_phrase_correction
  split <;> exact ⟨rfl, rfl⟩

/-- In handoff, a run of non-boundary characters only accumulates in
the buffer (and cancels the phrase timer). -/
theorem feed_nonboundary (C : Corrector) (hC : C.config.enabled = true)
    (d : Daemon) (w : Text) (times : List ℚ)
    (hs : d.input_state = .handoff)
    (hw : ∀ ch ∈ w, WORD_BOUNDARIES.contains ch = false)
    (hlen : times.length = w.length) :
    Daemon.run C d (keyEvents w times) =
      { d with buffer := ⟨d.buffer.current_word ++ w, d.buffer.current_line⟩,
               phrase_timer_pending := d.phrase_timer_pending && w.isEmpty } := by
  induction w generalizing d times with
  | nil =>
    cases times with
    | nil => simp [keyEvents, Daemon.run]
    | cons t ts => exact absurd hlen (by simp)
  | cons ch rest ih =>
    cases times with
    | nil => exact absurd hlen (by simp)
    | cons t ts =>
      have hch : WORD_BOUNDARIES.contains ch = false :=
        hw ch (List.mem_cons_self _ _)
      have hrest : ∀ c2 ∈ rest, WORD_BOUNDARIES.contains c2 = false :=
        fun c2 hm => hw c2 (List.mem_cons_of_mem _ hm)
      have hlen2 : ts.length = rest.length := by simpa using hlen
      have hch2 : ch ∉ WORD_BOUNDARIES := by simpa using hch
      have hstep : Daemon.step C t d (.key ch) =
          { d with buffer := ⟨d.buffer.current_word ++ [ch], d.buffer.current_line⟩,
                   phrase_timer_pending := false } := by
        show Daemon.on_key_char C t d ch = _
        unfold Daemon.on_key_char Daemon.cancel_phrase_timer TextBuffer.add_char
        simp [hC, hs, hch, hch2]
      show Daemon.run C (Daemon.step C t d (.key ch)) (keyEvents rest ts) = _
      rw [hstep]
      rw [ih _ ts (by simpa using hs) hrest hlen2]
      simp [Bool.and_false]

/-- The boundary keystroke that completes the re-fed corrected word is
swallowed by the idempotency guard (or stays in handoff): no replacer
call and no corrector call happens. -/
theorem handoff_boundary_refeed (C : Corrector) (hC : C.config.enabled = true)
    (d1 : Daemon) (o c : Text) (t0 tb : ℚ) (b : Char)
    (hs : d1.input_state = .handoff)
    (hw : d1.buffer.current_word = c)
    (hlc : d1.last_correction = some ⟨o, c, t0⟩)
    (hne : c ≠ [])
    (hb : WORD_BOUNDARIES.contains b = true)
    (ht : ratSub tb t0 < mkRat 2 1) :
    (Daemon.step C tb d1 (.key b)).replacer_calls = d1.replacer_calls ∧
    (Daemon.step C tb d1 (.key b)).corrector_calls = d1.corrector_calls := by
  show (Daemon.on_key_char C tb d1 b).replacer_calls = _ ∧
       (Daemon.on_key_char C tb d1 b).corrector_calls = _
  have hb2 : b ∈ WORD_BOUNDARIES := by simpa using hb
  have hne2 : c.isEmpty = false := by simpa [List.isEmpty_iff] using hne
  unfold Daemon.on_key_char Daemon.cancel_phrase_timer TextBuffer.add_char
  simp only [hC, Bool.not_true, Bool.false_eq_true, if_false, hs, if_true, hb,
    hb2, hw, hne, hne2, ite_true, ite_false]
  cases hdet : detect_layout_mismatch c with
  | none =>
    simp [hdet]
  | some m =>
    cases m with
    | mixed => simp [hdet]
    | enMeantRu =>
      simp only [hdet]
      have hskip : ∀ (d2 : Daemon), d2.last_correction = some ⟨o, c, t0⟩ →
          (Daemon.try_correct_word C tb d2 c).replacer_calls = d2.replacer_calls ∧
          (Daemon.try_correct_word C tb d2 c).corrector_calls = d2.corrector_calls := by
        intro d2 h2
        unfold Daemon.try_correct_word Daemon.is_idempotent
        rw [h2]
        have ht2 : ratSub tb t0 < 2 := by simpa using ht
        simp [ht2]
      rw [(schedule_keeps_calls _).1, (schedule_keeps_calls _).2]
      exact hskip _ (by simpa using hlc)
    | ruMeantEn =>
      simp only [hdet]
      have hskip : ∀ (d2 : Daemon), d2.last_correction = some ⟨o, c, t0⟩ →
          (Daemon.try_correct_word C tb d2 c).replacer_calls = d2.replacer_calls ∧
          (Daemon.try_correct_word C tb d2 c).corrector_calls = d2.corrector_calls := by
        intro d2 h2
        unfold Daemon.try_correct_word Daemon.is_idempotent
        rw [h2]
        have ht2 : ratSub tb t0 < 2 := by simpa using ht
        simp [ht2]
      rw [(schedule_keeps_calls _).1, (schedule_keeps_calls _).2]
      exact hskip _ (by simpa using hlc)

/-- C6 — Idempotency guard: from the state right after an applied word
correction (handoff, empty buffer, LastCorrection holding the corrected
output `c` at time `t0`), re-feeding the exact output `c` followed by a
boundary key within 2 seconds produces no further replacer call and no
further correction attempt; in particular, if exactly one replacer call
has happened, exactly one remains. -/
theorem C6_idempotency_guard (C : Corrector) (d : Daemon) (o c : Text)
    (t0 tb : ℚ) (b : Char) (times : List ℚ)
    (hstate : d.input_state = .handoff)
    (hbuf : d.buffer.current_word = [])
    (hlc : d.last_correction = some ⟨o, c, t0⟩)
    (hne : c ≠ [])
    (hchars : ∀ ch ∈ c, WORD_BOUNDARIES.contains ch = false)
    (hb : WORD_BOUNDARIES.contains b = true)
    (ht : ratSub tb t0 < mkRat 2 1)
    (hlen : times.length = c.length) :
    (Daemon.run C d (keyEvents (c ++ [b]) (times ++ [tb]))).replacer_calls
      = d.replacer_calls ∧
    (Daemon.run C d (keyEvents (c ++ [b]) (times ++ [tb]))).corrector_calls
      = d.corrector_calls ∧
    (d.replacer_calls.length = 1 →
      (Daemon.run C d (keyEvents (c ++ [b]) (times ++ [tb]))).replacer_calls.length
        = 1) := by
  by_cases hC : C.config.enabled = true
  case neg =>
    have hC' : C.config.enabled = false := by simpa using hC
    rw [run_disabled C hC' d _ _]
    exact ⟨rfl, rfl, fun h => h⟩
  case pos =>
    have hsplit : keyEvents (c ++ [b]) (times ++ [tb])
        = keyEvents c times ++ [(DEvent.key b, tb)] := by
      unfold keyEvents
      rw [List.zipWith_append _ _ _ _ _ hlen.symm]
      rfl
    rw [hsplit, run_append]
    rw [feed_nonboundary C hC d c times hstate hchars hlen]
    have hmain := handoff_boundary_refeed C hC
      { d with buffer := ⟨d.buffer.current_word ++ c, d.buffer.current_line⟩,
               phrase_timer_pending := d.phrase_timer_pending && c.isEmpty }
      o c t0 tb b (by simpa using hstate) (by simp [hbuf]) (by simpa using hlc)
      hne hb ht
    refine ⟨hmain.1, hmain.2, fun h => ?_⟩
    rw [show Daemon.run C _ [(DEvent.key b, tb)] = Daemon.step C tb _ (DEvent.key b)
      from rfl]
    rw [hmain.1]
    exact h

set_option maxRecDepth 40000 in
/-- Witness for C6: after the applied `ghbdtn` correction (one
replacer call), re-feeding `привет ` at time 1.5 leaves exactly one
replacer call in total. -/
theorem C6_idempotency_guard_witness :
    afterHello.replacer_calls.length = 1 ∧
    (Daemon.run corrHello afterHello
      (keyEvents (txt ("привет") ++ [' '])
        ([1, 1, 1, 1, 1, 1] ++ [mkRat 3 2]))).replacer_calls.length = 1 :=
  ⟨by decide,
   (C6_idempotency_guard corrHello afterHello (txt ("ghbdtn")) (txt ("привет"))
      1 (mkRat 3 2) ' ' [1, 1, 1, 1, 1, 1]
      (by decide) (by decide) (by decide) (by decide) (by decide) (by decide)
      (by decide) (by decide)).2.2 (by decide)⟩

end Kauto
